import Mathlib

/-!
Verification of the bump-pointer allocator in src/main.rs.

usize values are modelled as natural numbers below 2^64. Wrapping
arithmetic is explicit: reduction mod 2^64 where Rust release-mode
arithmetic wraps, wrapping subtraction of one written as addition of
2^64 - 1 followed by the reduction, and usize saturating_add as an
explicit cap at 2^64 - 1. Fallible code (the raw pointer that is either
null_mut() or an address) is modelled with Option, and returnedPtr maps
the outcome back to the literal pointer value the caller observes.
-/

namespace BumpAlloc

/-- Modulus of 64-bit machine words (usize on the demo target). -/
def WORD : Nat := 2 ^ 64

/-- Largest usize value (usize MAX). -/
def USIZE_MAX : Nat := 2 ^ 64 - 1

/-- Reduction of a natural number into the usize range (wrapping semantics). -/
def wrap (x : Nat) : Nat := x % WORD

/-- Bitwise negation on usize, for arguments below 2^64. -/
def usizeNot (x : Nat) : Nat := x ^^^ USIZE_MAX

/-- From src/main.rs lines 13-16: fn align_up(addr, align) computes
(addr + align - 1) & !(align - 1) in usize arithmetic; x - 1 with
release-mode wrapping is x + (2^64 - 1) reduced mod 2^64. -/
def align_up (addr align : Nat) : Nat :=
  wrap (addr + align + USIZE_MAX) &&& usizeNot (wrap (align + USIZE_MAX))

/-- Rust usize saturating_add: the exact sum when representable, else usize MAX. -/
def saturating_add (x y : Nat) : Nat :=
  if x + y ≤ USIZE_MAX then x + y else USIZE_MAX

/-- From src/main.rs lines 19-28: the allocator state. The AtomicUsize field
next is modelled as a plain natural number, since all claims quantify over
sequential executions. -/
structure BumpAllocator where
  heap_start : Nat
  heap_end : Nat
  next : Nat
  deriving DecidableEq

/-- From src/main.rs lines 34-56: alloc loads next, rounds it up to the
requested alignment, saturating-adds the size, fails (returning null_mut,
modelled as none) when the candidate cursor exceeds heap_end, and otherwise
stores the candidate cursor and returns the aligned address. -/
def alloc (st : BumpAllocator) (size align : Nat) : Option Nat × BumpAllocator :=
  let current_next := st.next
  let aligned := align_up current_next align
  let new_next := saturating_add aligned size
  if new_next > st.heap_end then
    (none, st)
  else
    (some aligned, { st with next := new_next })

/-- Pointer value the caller observes: address 0 (null) for the
out-of-memory branch, the aligned address itself on success. -/
def returnedPtr : Option Nat → Nat
  | none => 0
  | some a => a

/-- From src/main.rs lines 58-61: dealloc is a no-op. -/
def dealloc (st : BumpAllocator) (_ptr _size _align : Nat) : BumpAllocator := st

/-- From src/main.rs line 7: HEAP_SIZE = 1024 * 1024. -/
def HEAP_SIZE : Nat := 1024 * 1024

/-- From src/main.rs lines 65-70: the static value of GLOBAL before
init_heap has run (heap_start = 0, heap_end = 0, next = 0). -/
def GLOBAL : BumpAllocator := { heap_start := 0, heap_end := 0, next := 0 }

/-- Modelled from the spec: init(region_address, region_length) (spec
sections 4.1 and 6) sets start = region_address, end = start + length,
next = start. The source specializes the region to the static HEAP of
length HEAP_SIZE; see init_heap below. -/
def init (arena_start arena_size : Nat) : BumpAllocator :=
  { heap_start := arena_start
    heap_end := arena_start + arena_size
    next := arena_start }

/-- From src/main.rs lines 76-86: init_heap, with the runtime address of the
static HEAP buffer abstracted as a parameter. -/
def init_heap (heapAddr : Nat) : BumpAllocator := init heapAddr HEAP_SIZE

/-- Run a list of (size, align) requests sequentially, collecting the
(address, size) pair of every successful call and threading the state. -/
def runAllocs : BumpAllocator → List (Nat × Nat) → List (Nat × Nat) × BumpAllocator
  | st, [] => ([], st)
  | st, r :: rs =>
    match alloc st r.1 r.2 with
    | (none, st1) => runAllocs st1 rs
    | (some a, st1) =>
      let rest := runAllocs st1 rs
      ((a, r.1) :: rest.1, rest.2)

/-- The half-open byte ranges [p.1, p.1 + p.2) and [q.1, q.1 + q.2) do not
overlap. -/
def disjointRange (p q : Nat × Nat) : Prop :=
  p.1 + p.2 ≤ q.1 ∨ q.1 + q.2 ≤ p.1

instance : DecidableRel disjointRange := fun p q =>
  inferInstanceAs (Decidable (p.1 + p.2 ≤ q.1 ∨ q.1 + q.2 ≤ p.1))

/-- The cursor invariant from spec section 3: start ≤ next ≤ end. -/
def Inv (st : BumpAllocator) : Prop :=
  st.heap_start ≤ st.next ∧ st.next ≤ st.heap_end

instance (st : BumpAllocator) : Decidable (Inv st) :=
  inferInstanceAs (Decidable (_ ∧ _))

lemma two_pow_sub_two_pow_eq_shiftLeft (k n : Nat) (hk : k ≤ n) :
    2 ^ n - 2 ^ k = (2 ^ (n - k) - 1) <<< k := by
  rw [Nat.shiftLeft_eq, Nat.sub_mul, one_mul, ← Nat.pow_add]
  congr 2
  omega

lemma and_high_mask (y k n : Nat) (hk : k ≤ n) (hy : y < 2 ^ n) :
    y &&& (2 ^ n - 2 ^ k) = 2 ^ k * (y / 2 ^ k) := by
  have hrhs : 2 ^ k * (y / 2 ^ k) = (y >>> k) <<< k := by
    rw [Nat.shiftRight_eq_div_pow, Nat.shiftLeft_eq, Nat.mul_comm]
  rw [two_pow_sub_two_pow_eq_shiftLeft k n hk, hrhs]
  apply Nat.eq_of_testBit_eq
  intro i
  simp only [Nat.testBit_and, Nat.testBit_shiftLeft, Nat.testBit_shiftRight,
    Nat.testBit_two_pow_sub_one, ge_iff_le]
  by_cases hik : k ≤ i
  · by_cases hin : i < n
    · have h1 : i - k < n - k := by omega
      have h2 : k + (i - k) = i := by omega
      simp [hik, h1, h2]
    · have hyi : y.testBit i = false :=
        Nat.testBit_lt_two_pow
          (Nat.lt_of_lt_of_le hy (Nat.pow_le_pow_right (by omega) (by omega)))
      have h2 : k + (i - k) = i := by omega
      simp [hik, hyi, h2]
  · simp [hik]

lemma usizeNot_ones (k : Nat) (hk : k ≤ 64) :
    usizeNot (2 ^ k - 1) = 2 ^ 64 - 2 ^ k := by
  unfold usizeNot USIZE_MAX
  rw [two_pow_sub_two_pow_eq_shiftLeft k 64 hk]
  apply Nat.eq_of_testBit_eq
  intro i
  simp only [Nat.testBit_xor, Nat.testBit_shiftLeft, Nat.testBit_two_pow_sub_one, ge_iff_le]
  by_cases h1 : i < k
  · have h2 : i < 64 := by omega
    have h3 : ¬ k ≤ i := by omega
    simp [h1, h2, h3]
  · by_cases h2 : i < 64
    · have h3 : k ≤ i := by omega
      have h4 : i - k < 64 - k := by omega
      simp [h1, h2, h3, h4]
    · have h3 : ¬ i - k < 64 - k := by omega
      simp [h1, h2, h3]

lemma wrap_pred (x : Nat) (hx : 1 ≤ x) : wrap (x + USIZE_MAX) = wrap (x - 1) := by
  unfold wrap USIZE_MAX WORD
  have hM : (2 : Nat) ^ 64 = 18446744073709551616 := by norm_num
  have hx' : x + (2 ^ 64 - 1) = (x - 1) + 1 * 2 ^ 64 := by omega
  rw [hx', Nat.add_mul_mod_self_right]

lemma wrap_lt (x : Nat) : wrap x < 2 ^ 64 := by
  unfold wrap WORD
  exact Nat.mod_lt _ (by positivity)

lemma align_up_pow2 (addr k : Nat) (hk : k ≤ 63) :
    align_up addr (2 ^ k) = 2 ^ k * (wrap (addr + 2 ^ k - 1) / 2 ^ k) := by
  have hk1 : 1 ≤ 2 ^ k := Nat.one_le_two_pow
  have hk63 : 2 ^ k ≤ 2 ^ 63 := Nat.pow_le_pow_right (by omega) hk
  have hM : (2 : Nat) ^ 64 = 18446744073709551616 := by norm_num
  have h63 : (2 : Nat) ^ 63 = 9223372036854775808 := by norm_num
  unfold align_up
  rw [wrap_pred (addr + 2 ^ k) (by omega), wrap_pred (2 ^ k) hk1]
  have h1 : wrap (2 ^ k - 1) = 2 ^ k - 1 := by
    unfold wrap WORD
    exact Nat.mod_eq_of_lt (by omega)
  rw [h1, usizeNot_ones k (by omega)]
  exact and_high_mask _ k 64 (by omega) (wrap_lt _)

lemma align_up_pow2_mod (addr k : Nat) (hk : k ≤ 63) :
    align_up addr (2 ^ k) % 2 ^ k = 0 := by
  rw [align_up_pow2 addr k hk]
  exact Nat.mul_mod_right _ _

lemma align_up_pow2_no_overflow (addr k : Nat) (hk : k ≤ 63)
    (h : addr + 2 ^ k ≤ 2 ^ 64) :
    align_up addr (2 ^ k) = 2 ^ k * ((addr + 2 ^ k - 1) / 2 ^ k) := by
  rw [align_up_pow2 addr k hk]
  have hk1 : 1 ≤ 2 ^ k := Nat.one_le_two_pow
  have h1 : wrap (addr + 2 ^ k - 1) = addr + 2 ^ k - 1 := by
    unfold wrap WORD
    exact Nat.mod_eq_of_lt (by omega)
  rw [h1]

lemma le_align_up (addr k : Nat) (hk : k ≤ 63) (h : addr + 2 ^ k ≤ 2 ^ 64) :
    addr ≤ align_up addr (2 ^ k) := by
  rw [align_up_pow2_no_overflow addr k hk h]
  have hk1 : 0 < 2 ^ k := Nat.two_pow_pos k
  have hd := Nat.div_add_mod (addr + 2 ^ k - 1) (2 ^ k)
  have hm := Nat.mod_lt (addr + 2 ^ k - 1) hk1
  omega

lemma align_up_le (addr k : Nat) (hk : k ≤ 63) (h : addr + 2 ^ k ≤ 2 ^ 64) :
    align_up addr (2 ^ k) ≤ addr + 2 ^ k - 1 := by
  rw [align_up_pow2_no_overflow addr k hk h]
  have hd := Nat.div_add_mod (addr + 2 ^ k - 1) (2 ^ k)
  omega

lemma align_up_least (addr k m : Nat) (hk : k ≤ 63) (h : addr + 2 ^ k ≤ 2 ^ 64)
    (hm : addr ≤ m) (hd : 2 ^ k ∣ m) : align_up addr (2 ^ k) ≤ m := by
  rw [align_up_pow2_no_overflow addr k hk h]
  rcases hd with ⟨t, rfl⟩
  have hk1 : 0 < 2 ^ k := Nat.two_pow_pos k
  have h1 : (addr + 2 ^ k - 1) / 2 ^ k ≤ t := by
    rw [Nat.div_le_iff_le_mul_add_pred hk1]
    omega
  exact Nat.mul_le_mul_left _ h1

lemma alloc_of_le (st : BumpAllocator) (size align : Nat)
    (h : saturating_add (align_up st.next align) size ≤ st.heap_end) :
    alloc st size align =
      (some (align_up st.next align),
       { st with next := saturating_add (align_up st.next align) size }) := by
  simp only [alloc]
  rw [if_neg (by omega)]

lemma alloc_of_gt (st : BumpAllocator) (size align : Nat)
    (h : st.heap_end < saturating_add (align_up st.next align) size) :
    alloc st size align = (none, st) := by
  simp only [alloc]
  rw [if_pos (by omega)]

lemma alloc_fail_spec (st : BumpAllocator) (size align : Nat) (st1 : BumpAllocator)
    (h : alloc st size align = (none, st1)) : st1 = st := by
  simp only [alloc] at h
  split at h
  · simp only [Prod.mk.injEq] at h
    exact h.2.symm
  · simp at h

lemma saturating_add_le_iff (x y b : Nat) (hb : b < USIZE_MAX) :
    saturating_add x y ≤ b ↔ x + y ≤ b := by
  unfold saturating_add
  split
  · exact Iff.rfl
  · constructor
    · intro hc
      omega
    · intro hc
      omega

lemma alloc_success_spec (st : BumpAllocator) (size align a : Nat) (st1 : BumpAllocator)
    (hpow : ∃ k, align = 2 ^ k)
    (hle : st.next ≤ st.heap_end)
    (hroom : st.heap_end + align ≤ USIZE_MAX)
    (h : alloc st size align = (some a, st1)) :
    st.next ≤ a ∧ a % align = 0 ∧ st1.next = a + size ∧ st1.next ≤ st.heap_end ∧
      st1.heap_start = st.heap_start ∧ st1.heap_end = st.heap_end := by
  rcases hpow with ⟨k, rfl⟩
  have hM : (2 : Nat) ^ 64 = 18446744073709551616 := by norm_num
  have hk1 : 0 < 2 ^ k := Nat.two_pow_pos k
  have hk : k ≤ 63 := by
    have h1 : 2 ^ k < 2 ^ 64 := by
      unfold USIZE_MAX at hroom
      omega
    have h2 : k < 64 := by
      by_contra hcon
      have h3 : (2 : Nat) ^ 64 ≤ 2 ^ k :=
        Nat.pow_le_pow_right (by norm_num) (Nat.le_of_not_lt hcon)
      omega
    omega
  have hnw : st.next + 2 ^ k ≤ 2 ^ 64 := by
    unfold USIZE_MAX at hroom
    omega
  have hge := le_align_up st.next k hk hnw
  have hub := align_up_le st.next k hk hnw
  have hmod := align_up_pow2_mod st.next k hk
  simp only [alloc] at h
  split at h
  · simp at h
  · rename_i hc
    have hc' : saturating_add (align_up st.next (2 ^ k)) size ≤ st.heap_end :=
      Nat.le_of_not_lt hc
    have hend : st.heap_end < USIZE_MAX := by
      unfold USIZE_MAX at hroom ⊢
      omega
    have hsat : saturating_add (align_up st.next (2 ^ k)) size =
        align_up st.next (2 ^ k) + size :=
      le_antisymm
        (by unfold saturating_add; split <;> omega)
        (by
          have := (saturating_add_le_iff (align_up st.next (2 ^ k)) size
            st.heap_end hend).mp hc'
          unfold saturating_add
          split <;> omega)
  -- extract the components of the success equation
    simp only [Prod.mk.injEq, Option.some.injEq] at h
    obtain ⟨ha, hst⟩ := h
    subst ha
    subst hst
    refine ⟨hge, hmod, ?_, ?_, rfl, rfl⟩
    · simp [hsat]
    · simp only []
      exact hc'

lemma runAllocs_spec (rs : List (Nat × Nat)) : ∀ st : BumpAllocator,
    st.heap_start ≤ st.next → st.next ≤ st.heap_end →
    (∀ p ∈ rs, (∃ k, p.2 = 2 ^ k) ∧ st.heap_end + p.2 ≤ USIZE_MAX) →
    (∀ q ∈ (runAllocs st rs).1, st.next ≤ q.1 ∧ q.1 + q.2 ≤ (runAllocs st rs).2.next) ∧
      List.Pairwise (fun p q => p.1 + p.2 ≤ q.1) (runAllocs st rs).1 ∧
      st.next ≤ (runAllocs st rs).2.next ∧
      (runAllocs st rs).2.next ≤ (runAllocs st rs).2.heap_end ∧
      (runAllocs st rs).2.heap_start = st.heap_start ∧
      (runAllocs st rs).2.heap_end = st.heap_end := by
  induction rs with
  | nil =>
    intro st h1 h2 _hok
    simp [runAllocs, h2]
  | cons r rs ih =>
    intro st h1 h2 hok
    have hr := hok r (List.mem_cons_self r rs)
    have hok' : ∀ p ∈ rs, (∃ k, p.2 = 2 ^ k) ∧ st.heap_end + p.2 ≤ USIZE_MAX :=
      fun p hp => hok p (List.mem_cons_of_mem r hp)
    rcases halloc : alloc st r.1 r.2 with ⟨o, st1⟩
    cases o with
    | none =>
      have hst1 : st1 = st := alloc_fail_spec st r.1 r.2 st1 halloc
      subst hst1
      have hres := ih st1 h1 h2 hok'
      simpa [runAllocs, halloc] using hres
    | some a =>
      obtain ⟨hge, _hmod, hnext, hle', hs, he⟩ :=
        alloc_success_spec st r.1 r.2 a st1 hr.1 h2 hr.2 halloc
      have hok2 : ∀ p ∈ rs, (∃ k, p.2 = 2 ^ k) ∧ st1.heap_end + p.2 ≤ USIZE_MAX := by
        intro p hp
        rw [he]
        exact hok' p hp
      obtain ⟨hq, hpw, hmono, hinv, hhs, hhe⟩ := ih st1 (by omega) (by omega) hok2
      simp only [runAllocs, halloc]
      refine ⟨?_, ?_, ?_, ?_, ?_, ?_⟩
      · intro q hq'
        rcases List.mem_cons.mp hq' with rfl | hq''
        · exact ⟨hge, by omega⟩
        · obtain ⟨hA, hB⟩ := hq q hq''
          exact ⟨by omega, hB⟩
      · refine List.pairwise_cons.mpr ⟨?_, hpw⟩
        intro q hq''
        have hA := (hq q hq'').1
        omega
      · omega
      · exact hinv
      · rw [hhs, hs]
      · rw [hhe, he]

lemma align_up_one (addr : Nat) (h : addr < 2 ^ 64) : align_up addr 1 = addr := by
  have h0 : (1 : Nat) = 2 ^ 0 := by norm_num
  have h00 : (2 : Nat) ^ 0 = 1 := by norm_num
  rw [h0, align_up_pow2_no_overflow addr 0 (by omega) (by omega)]
  simp

/-- Claim C1: over any sequence of requests executed sequentially from a
state satisfying the cursor invariant (in particular the state produced
by init), with power-of-two alignments that fit the address space, the
ranges [a_i, a_i + size_i) returned by the successful alloc calls are
pairwise non-overlapping, and every returned range is disjoint from the
region [heap_start, c) already handed out before the run, c being the
cursor loaded at the start; the pre-state is universally quantified, so
instantiating the theorem at the state preceding the i-th call makes c
that call's loaded cursor. -/
theorem alloc_disjoint (st : BumpAllocator) (rs : List (Nat × Nat))
    (h1 : st.heap_start ≤ st.next) (h2 : st.next ≤ st.heap_end)
    (hok : ∀ p ∈ rs, (∃ k, p.2 = 2 ^ k) ∧ st.heap_end + p.2 ≤ USIZE_MAX) :
    List.Pairwise disjointRange (runAllocs st rs).1 ∧
    ∀ q ∈ (runAllocs st rs).1,
      disjointRange (st.heap_start, st.next - st.heap_start) q := by
  obtain ⟨hq, hpw, _, _, _, _⟩ := runAllocs_spec rs st h1 h2 hok
  constructor
  · exact hpw.imp (fun h => Or.inl h)
  · intro q hq'
    have h3 := (hq q hq').1
    unfold disjointRange
    dsimp only
    left
    omega

/-- Concrete instance of C1 on the spec section 8 scenario: arena of 16
bytes at 4096, requests (4,4), (8,8), (1,1); the successful ranges are
(4096,4) and (4104,8). -/
theorem alloc_disjoint_witness :
    List.Pairwise disjointRange [((4096 : Nat), (4 : Nat)), (4104, 8)] ∧
    disjointRange (4096, 0) (4096, 4) ∧ disjointRange (4096, 0) (4104, 8) := by
  have h := alloc_disjoint (init 4096 16) [(4, 4), (8, 8), (1, 1)] (by decide) (by decide)
    (by
      intro p hp
      simp only [List.mem_cons, List.mem_nil_iff, or_false] at hp
      rcases hp with rfl | rfl | rfl
      · exact ⟨⟨2, by norm_num⟩, by decide⟩
      · exact ⟨⟨3, by norm_num⟩, by decide⟩
      · exact ⟨⟨0, by norm_num⟩, by decide⟩)
  exact ⟨h.1, h.2 (4096, 4) (by decide), h.2 (4104, 8) (by decide)⟩

/-- Claim C2: a successful alloc with power-of-two alignment returns an
address that is a multiple of the alignment, and align_up(addr, 2^k) =
(addr + 2^k - 1) & not(2^k - 1) is the least multiple of 2^k that is at
least addr, whenever that multiple is representable (addr + 2^k at most
2^64); src/main.rs leaves non-power-of-two alignment unspecified and the
claim excludes it. -/
theorem alloc_aligned (st : BumpAllocator) (size k a addr : Nat) (st1 : BumpAllocator)
    (hk : k ≤ 63) (h : alloc st size (2 ^ k) = (some a, st1))
    (hnw : addr + 2 ^ k ≤ 2 ^ 64) :
    a % 2 ^ k = 0 ∧
    addr ≤ align_up addr (2 ^ k) ∧
    2 ^ k ∣ align_up addr (2 ^ k) ∧
    (∀ m, addr ≤ m → 2 ^ k ∣ m → align_up addr (2 ^ k) ≤ m) := by
  refine ⟨?_, le_align_up addr k hk hnw, ⟨_, align_up_pow2 addr k hk⟩,
    fun m hm hd => align_up_least addr k m hk hnw hm hd⟩
  simp only [alloc] at h
  split at h
  · simp at h
  · simp only [Prod.mk.injEq, Option.some.injEq] at h
    rw [← h.1]
    exact align_up_pow2_mod st.next k hk

/-- Concrete instance of C2: alloc(4, 4) from the freshly initialized
4096/16 arena returns 4096, a multiple of 4; align_up 100 4 is the least
multiple of 4 at least 100, namely 100 itself. -/
theorem alloc_aligned_witness :
    (4096 : Nat) % 2 ^ 2 = 0 ∧
    (100 : Nat) ≤ align_up 100 (2 ^ 2) ∧
    (2 : Nat) ^ 2 ∣ align_up 100 (2 ^ 2) ∧
    align_up 100 (2 ^ 2) ≤ 100 := by
  have h := alloc_aligned (init 4096 16) 4 2 4096 100 ⟨4096, 4112, 4100⟩
    (by norm_num) (by decide) (by decide)
  exact ⟨h.1, h.2.1, h.2.2.1, h.2.2.2 100 (le_refl 100) ⟨25, by norm_num⟩⟩

/-- Claim C3: for an arena of length L at address S (with S + L below
usize MAX so that the arena and the one-past cursor are representable),
immediately after init the request alloc(L, 1) succeeds and returns S,
and the immediately following alloc(1, 1) fails with no state change,
the caller-visible pointer value being the null/zero out-of-memory
sentinel. -/
theorem exhaustion_boundary (S L : Nat) (h : S + L < USIZE_MAX) :
    (alloc (init S L) L 1).1 = some S ∧
    (alloc (init S L) L 1).2.next = S + L ∧
    alloc ((alloc (init S L) L 1).2) 1 1 = (none, (alloc (init S L) L 1).2) ∧
    returnedPtr (alloc ((alloc (init S L) L 1).2) 1 1).1 = 0 := by
  have hM : (2 : Nat) ^ 64 = 18446744073709551616 := by norm_num
  unfold USIZE_MAX at h
  have ha1 : align_up (init S L).next 1 = S := align_up_one S (by omega)
  have hs1 : saturating_add S L = S + L := by
    unfold saturating_add USIZE_MAX
    rw [if_pos (by omega)]
  have hle1 : saturating_add (align_up (init S L).next 1) L ≤ (init S L).heap_end := by
    rw [ha1]
    show saturating_add S L ≤ S + L
    rw [hs1]
  have e1 : alloc (init S L) L 1 = (some S, ⟨S, S + L, S + L⟩) := by
    rw [alloc_of_le (init S L) L 1 hle1, ha1]
    show (some S, { init S L with next := saturating_add S L }) = _
    rw [hs1]
    rfl
  have ha2 : align_up (BumpAllocator.next ⟨S, S + L, S + L⟩) 1 = S + L :=
    align_up_one (S + L) (by omega)
  have hs2 : saturating_add (S + L) 1 = S + L + 1 := by
    unfold saturating_add USIZE_MAX
    rw [if_pos (by omega)]
  have e2 : alloc (⟨S, S + L, S + L⟩ : BumpAllocator) 1 1 = (none, ⟨S, S + L, S + L⟩) := by
    apply alloc_of_gt
    rw [ha2, hs2]
    show S + L < S + L + 1
    omega
  rw [e1]
  exact ⟨rfl, rfl, e2, by rw [e2]; rfl⟩

/-- Concrete instance of C3: arena of 16 bytes at 4096. -/
theorem exhaustion_boundary_witness :
    (alloc (init 4096 16) 16 1).1 = some 4096 ∧
    (alloc (init 4096 16) 16 1).2.next = 4096 + 16 ∧
    alloc ((alloc (init 4096 16) 16 1).2) 1 1 = (none, (alloc (init 4096 16) 16 1).2) ∧
    returnedPtr (alloc ((alloc (init 4096 16) 16 1).2) 1 1).1 = 0 :=
  exhaustion_boundary 4096 16 (by decide)

/-- Claim C4: a failing alloc returns the out-of-memory outcome with the
state unchanged, the caller-visible pointer value is the null sentinel,
and repeating the exact same request from the resulting state fails
identically. -/
theorem alloc_fail_noop (st : BumpAllocator) (size align : Nat) (st1 : BumpAllocator)
    (h : alloc st size align = (none, st1)) :
    st1 = st ∧ alloc st1 size align = (none, st1) ∧
      returnedPtr (alloc st1 size align).1 = 0 := by
  have he := alloc_fail_spec st size align st1 h
  subst he
  exact ⟨rfl, h, by rw [h]; rfl⟩

/-- Concrete instance of C4: requesting 100 bytes from the 16-byte arena
fails and leaves the state unchanged. -/
theorem alloc_fail_noop_witness :
    init 4096 16 = init 4096 16 ∧
    alloc (init 4096 16) 100 1 = (none, init 4096 16) ∧
    returnedPtr (alloc (init 4096 16) 100 1).1 = 0 :=
  alloc_fail_noop (init 4096 16) 100 1 (init 4096 16) (by decide)

/-- Claim C5: init establishes start ≤ next ≤ end, and every alloc call
(succeeding or failing, with a power-of-two alignment that fits the
address space) and every dealloc call preserves it; in particular the
value stored into next never exceeds heap_end, even though a rejected
request transiently computes one. -/
theorem inv_preserved (S L : Nat) (st : BumpAllocator) (size align k ptr s2 a2 : Nat)
    (hpow : align = 2 ^ k) (hroom : st.heap_end + align ≤ USIZE_MAX)
    (hinv : Inv st) :
    Inv (init S L) ∧ Inv (alloc st size align).2 ∧ Inv (dealloc st ptr s2 a2) := by
  obtain ⟨h1, h2⟩ := hinv
  refine ⟨⟨le_refl _, Nat.le_add_right _ _⟩, ?_, ⟨h1, h2⟩⟩
  rcases halloc : alloc st size align with ⟨o, st1⟩
  cases o with
  | none =>
    have he := alloc_fail_spec st size align st1 halloc
    show Inv st1
    rw [he]
    exact ⟨h1, h2⟩
  | some a =>
    obtain ⟨hge, _, hnext, hle', hs, he⟩ :=
      alloc_success_spec st size align a st1 ⟨k, hpow⟩ h2 hroom halloc
    show Inv st1
    exact ⟨by omega, by omega⟩

/-- Concrete instance of C5. -/
theorem inv_preserved_witness :
    Inv (init 4096 16) ∧ Inv (alloc (init 4096 16) 4 4).2 ∧
      Inv (dealloc (init 4096 16) 4096 4 4) :=
  inv_preserved 4096 16 (init 4096 16) 4 4 2 4096 4 4 (by norm_num) (by decide) (by decide)

/-- Claim C6: along any request sequence from an invariant-satisfying
state (power-of-two alignments fitting the address space), every later
successful address is at least every earlier successful address plus that
earlier call's size (in particular the n-th versus the (n-1)-th), the
cursor moves monotonically forward over the whole run (failed calls
included, since they leave it unchanged), and dealloc never moves it. -/
theorem alloc_monotone (st : BumpAllocator) (rs : List (Nat × Nat))
    (h1 : st.heap_start ≤ st.next) (h2 : st.next ≤ st.heap_end)
    (hok : ∀ p ∈ rs, (∃ k, p.2 = 2 ^ k) ∧ st.heap_end + p.2 ≤ USIZE_MAX) :
    List.Pairwise (fun p q : Nat × Nat => p.1 + p.2 ≤ q.1) (runAllocs st rs).1 ∧
    st.next ≤ (runAllocs st rs).2.next ∧
    ∀ ptr s3 a3, (dealloc (runAllocs st rs).2 ptr s3 a3).next =
      (runAllocs st rs).2.next := by
  obtain ⟨_, hpw, hmono, _, _, _⟩ := runAllocs_spec rs st h1 h2 hok
  exact ⟨hpw, hmono, fun _ _ _ => rfl⟩

/-- Concrete instance of C6 on the spec section 8 scenario. -/
theorem alloc_monotone_witness :
    List.Pairwise (fun p q : Nat × Nat => p.1 + p.2 ≤ q.1) [((4096 : Nat), (4 : Nat)), (4104, 8)] ∧
    (4096 : Nat) ≤ 4112 ∧
    (dealloc ⟨4096, 4112, 4112⟩ 4096 4 4).next = 4112 := by
  have h := alloc_monotone (init 4096 16) [(4, 4), (8, 8), (1, 1)] (by decide) (by decide)
    (by
      intro p hp
      simp only [List.mem_cons, List.mem_nil_iff, or_false] at hp
      rcases hp with rfl | rfl | rfl
      · exact ⟨⟨2, by norm_num⟩, by decide⟩
      · exact ⟨⟨3, by norm_num⟩, by decide⟩
      · exact ⟨⟨0, by norm_num⟩, by decide⟩)
  exact ⟨h.1, h.2.1, h.2.2 4096 4 4⟩

/-- Claim C7: dealloc is a no-op for every argument: it changes no
allocator state, folding any number of dealloc calls over a state leaves
it unchanged, and a subsequent alloc returns exactly what it would have
returned without them. -/
theorem dealloc_noop (st : BumpAllocator) (ptr size align : Nat)
    (args : List (Nat × Nat × Nat)) (s2 a2 : Nat) :
    dealloc st ptr size align = st ∧
    List.foldl (fun s3 q => dealloc s3 q.1 q.2.1 q.2.2) st args = st ∧
    alloc (List.foldl (fun s3 q => dealloc s3 q.1 q.2.1 q.2.2) st args) s2 a2 =
      alloc st s2 a2 := by
  have hfold : ∀ (l : List (Nat × Nat × Nat)) (s : BumpAllocator),
      List.foldl (fun s3 q => dealloc s3 q.1 q.2.1 q.2.2) s l = s := by
    intro l
    induction l with
    | nil => intro s; rfl
    | cons x xs ih => intro s; exact ih s
  exact ⟨rfl, hfold args st, by rw [hfold args st]⟩

/-- Claim C8: saturating_add caps the candidate cursor at usize MAX, the
minimum of the exact sum and 2^64 - 1; consequently, whenever the exact
sum aligned + size exceeds heap_end (heap_end below usize MAX, as for any
real arena), the exhaustion check fires and the call fails with the state
unchanged — the sum can never wrap into a small value that falsely passes
the new_next > heap_end check. -/
theorem saturating_no_wrap (x y : Nat) (st : BumpAllocator) (size align : Nat)
    (hend : st.heap_end < USIZE_MAX)
    (hover : st.heap_end < align_up st.next align + size) :
    saturating_add x y = min (x + y) USIZE_MAX ∧ alloc st size align = (none, st) := by
  have hM : (2 : Nat) ^ 64 = 18446744073709551616 := by norm_num
  constructor
  · unfold saturating_add USIZE_MAX
    split <;> omega
  · apply alloc_of_gt
    unfold saturating_add USIZE_MAX
    unfold USIZE_MAX at hend
    split <;> omega

/-- Concrete instance of C8. -/
theorem saturating_no_wrap_witness :
    saturating_add 3 5 = min (3 + 5) USIZE_MAX ∧
    alloc (init 4096 16) 100 1 = (none, init 4096 16) :=
  saturating_no_wrap 3 5 (init 4096 16) 100 1 (by decide) (by decide)

/-- Claim C9: before init_heap runs, GLOBAL has start = end = next = 0, so
every request observes the null out-of-memory sentinel: the caller-visible
pointer value is 0 for every size and power-of-two alignment, and every
request of positive size takes the out-of-memory branch. -/
theorem pre_init_oom (size k : Nat) (hk : k ≤ 63) :
    returnedPtr (alloc GLOBAL size (2 ^ k)).1 = 0 ∧
    (0 < size → alloc GLOBAL size (2 ^ k) = (none, GLOBAL)) := by
  have hM : (2 : Nat) ^ 64 = 18446744073709551616 := by norm_num
  have hk1 : 0 < 2 ^ k := Nat.two_pow_pos k
  have hk63 : 2 ^ k ≤ 2 ^ 63 := Nat.pow_le_pow_right (by norm_num) hk
  have h63 : (2 : Nat) ^ 63 = 9223372036854775808 := by norm_num
  have ha : align_up GLOBAL.next (2 ^ k) = 0 := by
    show align_up 0 (2 ^ k) = 0
    rw [align_up_pow2_no_overflow 0 k hk (by omega)]
    have hz : (0 + 2 ^ k - 1) / 2 ^ k = 0 := Nat.div_eq_of_lt (by omega)
    rw [hz, Nat.mul_zero]
  by_cases hsz : 0 < size
  · have he : alloc GLOBAL size (2 ^ k) = (none, GLOBAL) := by
      apply alloc_of_gt
      rw [ha]
      show (0 : Nat) < saturating_add 0 size
      unfold saturating_add USIZE_MAX
      split <;> omega
    refine ⟨?_, fun _ => he⟩
    rw [he]
    rfl
  · have hsz0 : size = 0 := by omega
    subst hsz0
    have hzero : saturating_add 0 0 = 0 := by
      unfold saturating_add USIZE_MAX
      rw [if_pos (by omega)]
    have he : alloc GLOBAL 0 (2 ^ k) = (some 0, GLOBAL) := by
      have hle : saturating_add (align_up GLOBAL.next (2 ^ k)) 0 ≤ GLOBAL.heap_end := by
        rw [ha]
        show saturating_add 0 0 ≤ 0
        rw [hzero]
      rw [alloc_of_le GLOBAL 0 (2 ^ k) hle, ha]
      show (some 0, { GLOBAL with next := saturating_add 0 0 }) = _
      rw [hzero]
      rfl
    refine ⟨?_, fun hcon => absurd hcon (by omega)⟩
    rw [he]
    rfl

/-- Concrete instance of C9: a one-byte request with alignment 8 before
init_heap observes the null sentinel. -/
theorem pre_init_oom_witness :
    returnedPtr (alloc GLOBAL 1 (2 ^ 3)).1 = 0 ∧
    alloc GLOBAL 1 (2 ^ 3) = (none, GLOBAL) := by
  have h := pre_init_oom 1 3 (by norm_num)
  exact ⟨h.1, h.2 (by norm_num)⟩

/-- Claim C10: a zero-size request is not rejected while alignment fits:
from any state with next ≤ heap_end and a power-of-two alignment (that
fits the address space) whose rounded-up cursor still fits the arena,
alloc(0, align) succeeds, returns the rounded-up cursor and stores it into
next — so a zero-size allocation can advance the cursor by the alignment
padding — and when the arena is exactly exhausted (next = heap_end),
alloc(0, 1) still succeeds, returning heap_end and leaving the state
unchanged. -/
theorem zero_size_alloc (st : BumpAllocator) (k : Nat) (hk : k ≤ 63)
    (hnw : st.next + 2 ^ k ≤ 2 ^ 64)
    (hfit : align_up st.next (2 ^ k) ≤ st.heap_end)
    (hinv : st.next ≤ st.heap_end) :
    alloc st 0 (2 ^ k) =
      (some (align_up st.next (2 ^ k)), { st with next := align_up st.next (2 ^ k) }) ∧
    (st.next = st.heap_end → alloc st 0 1 = (some st.heap_end, st)) := by
  have hM : (2 : Nat) ^ 64 = 18446744073709551616 := by norm_num
  have hk1 : 0 < 2 ^ k := Nat.two_pow_pos k
  have hub := align_up_le st.next k hk hnw
  have hs0 : saturating_add (align_up st.next (2 ^ k)) 0 = align_up st.next (2 ^ k) := by
    unfold saturating_add USIZE_MAX
    rw [if_pos (by omega)]
    exact Nat.add_zero _
  constructor
  · rw [alloc_of_le st 0 (2 ^ k) (by rw [hs0]; exact hfit), hs0]
  · intro heq
    have ha1 : align_up st.next 1 = st.next := align_up_one st.next (by omega)
    have hs1 : saturating_add st.next 0 = st.next := by
      unfold saturating_add USIZE_MAX
      rw [if_pos (by omega)]
      exact Nat.add_zero _
    rw [alloc_of_le st 0 1 (by rw [ha1, hs1]; exact hinv), ha1, hs1]
    simp only [Prod.mk.injEq]
    exact ⟨by rw [heq], trivial⟩

/-- Concrete instance of C10: the arena 4096/16 exactly exhausted at
cursor 4112; a zero-size request with alignment 1 still succeeds and
returns 4112 without changing the state. -/
theorem zero_size_alloc_witness :
    alloc ⟨4096, 4112, 4112⟩ 0 (2 ^ 0) =
      (some 4112, (⟨4096, 4112, 4112⟩ : BumpAllocator)) ∧
    alloc ⟨4096, 4112, 4112⟩ 0 1 = (some 4112, (⟨4096, 4112, 4112⟩ : BumpAllocator)) := by
  have h := zero_size_alloc ⟨4096, 4112, 4112⟩ 0 (by norm_num) (by decide) (by decide)
    (by decide)
  exact ⟨h.1, h.2 rfl⟩

end BumpAlloc
